import Mathlib

/-!
Shallow embedding of the category algebra and interning engine of the
pyramids repository (source file src/_categorization.pyx), together with
proofs of its specified properties.

Python object identity is modeled explicitly: every raw string object and
every interned-symbol object carries a numeric identity (standing for its
memory address), and the Python object-identity comparison is equality of
those identities. All state threaded through the interners is explicit.
-/

/-- A raw Python string object: an object identity plus its text. Two string
objects with equal text need not be the identical object. -/
structure RawStr where
  id : Nat
  content : String
deriving DecidableEq

/-- An interned symbol (class InternedString, source lines 21-66; the subclass
Property, lines 86-96, is modeled by the is_property tag, which plays the role
of the dynamic class tag). The id field is the object identity of the symbol
itself; value is the str object it wraps (self.value in the source). -/
structure InternedString where
  id : Nat
  value : RawStr
  is_property : Bool
deriving DecidableEq

/-- InternedString.__eq__ (line 34): self.value is other.value. -/
def interned_eq (a b : InternedString) : Bool := decide (a.value = b.value)

/-- InternedString.__lt__ (line 40): self.value is not other.value and
self.value < other.value (str order on the texts). -/
def interned_lt (a b : InternedString) : Bool :=
  decide (a.value ≠ b.value) && decide (a.value.content < b.value.content)

/-- InternedString.__le__ (line 43): self.value is other.value or
self.value <= other.value. -/
def interned_le (a b : InternedString) : Bool :=
  decide (a.value = b.value) || decide (a.value.content ≤ b.value.content)

/-- InternedString.__hash__ (line 52): id(self.value). -/
def interned_hash (a : InternedString) : Nat := a.value.id

/-- Python dict lookup of a str key: str hashing and equality compare the
text, not the object identity. -/
def dictLookup : List (String × InternedString) → String → Option InternedString
  | [], _ => none
  | kv :: rest, s => if kv.1 = s then some kv.2 else dictLookup rest s

/-- class StringInterner (lines 69-83): the _intern_map dict plus the _subtype
argument (false: plain InternedString, true: the Property subclass). -/
structure StringInterner where
  intern_map : List (String × InternedString)
  subtype_is_property : Bool
deriving DecidableEq

/-- StringInterner.intern (lines 77-83): return the stored symbol for the
text if present, otherwise allocate a new symbol of the subtype, store it,
and return it. The next argument supplies the object identity a freshly
allocated symbol receives. -/
def StringInterner.intern (st : StringInterner) (next : Nat) (s : RawStr) :
    InternedString × StringInterner × Nat :=
  match dictLookup st.intern_map s.content with
  | some result => (result, st, next)
  | none =>
      let result : InternedString := ⟨next, s, st.subtype_is_property⟩
      (result, ⟨(s.content, result) :: st.intern_map, st.subtype_is_property⟩, next + 1)

/-- The process-wide state: the two module-level interners (lines 312-313) and
the allocation counter for fresh symbol identities. -/
structure World where
  category_name_interner : StringInterner
  property_interner : StringInterner
  next_id : Nat
deriving DecidableEq

/-- _category_name_interner.intern (line 312). -/
def World.internName (w : World) (s : RawStr) : InternedString × World :=
  let r := w.category_name_interner.intern w.next_id s
  (r.1, ⟨r.2.1, w.property_interner, r.2.2⟩)

/-- _property_interner.intern (line 313). -/
def World.internProp (w : World) (s : RawStr) : InternedString × World :=
  let r := w.property_interner.intern w.next_id s
  (r.1, ⟨w.category_name_interner, r.2.1, r.2.2⟩)

/-- The fresh module state: an empty name interner of plain InternedStrings
and an empty property interner of Properties. -/
def bootWorld : World := ⟨⟨[], false⟩, ⟨[], true⟩, 1⟩

/-- Module initialization (line 314):
_CATEGORY_WILDCARD = _category_name_interner.intern("_"). The "_" literal is
the string object with identity 0. -/
def bootResult : InternedString × World := bootWorld.internName ⟨0, "_"⟩

/-- The reserved wildcard name object (lines 314, 317). -/
def CATEGORY_WILDCARD : InternedString := bootResult.1

/-- The process state right after module load. -/
def world0 : World := bootResult.2

/-- Well-formedness of the process state: the name interner allocates plain
InternedStrings and holds only those; the property interner allocates
Properties and holds only those. This holds at module load and is preserved
by every interning step. -/
abbrev World.wf (w : World) : Prop :=
  w.category_name_interner.subtype_is_property = false ∧
  w.property_interner.subtype_is_property = true ∧
  (∀ kv ∈ w.category_name_interner.intern_map, kv.2.is_property = false) ∧
  (∀ kv ∈ w.property_interner.intern_map, kv.2.is_property = true)

/-- An argument that may be a raw str or an already-interned symbol. -/
inductive PropInput where
  | raw (s : RawStr)
  | sym (p : InternedString)
deriving DecidableEq

/-- Property.get (lines 88-93): an already-interned Property is returned
unchanged; a raw str is interned through the property interner; any other
input reaches the str-typed intern parameter and raises a TypeError,
modeled as none. -/
def propertyGet (w : World) : PropInput → Option (InternedString × World)
  | .sym p => if p.is_property then some (p, w) else none
  | .raw s => some (w.internProp s)

/-- The normalization loop of make_property_set (lines 110-116): a str element
goes through Property.get; any other element must already be a Property (the
cdef Property declaration raises a TypeError otherwise, modeled as none,
exactly the two cases of propertyGet). Returns the normalized elements in
order, threading the interner state. -/
def make_property_items (w : World) : List PropInput → Option (List InternedString × World)
  | [] => some ([], w)
  | p :: rest =>
    match propertyGet w p with
    | none => none
    | some iw =>
      match make_property_items iw.2 rest with
      | none => none
      | some rw => some (iw.1 :: rw.1, rw.2)

/-- make_property_set (lines 105-119): an empty (falsy) input yields the
shared EMPTY_SET; otherwise the normalized elements are collected into a
frozenset. -/
def make_property_set (w : World) (properties : List PropInput) :
    Option (Finset InternedString × World) :=
  match properties with
  | [] => some (∅, w)
  | _ =>
    match make_property_items w properties with
    | none => none
    | some rw => some (rw.1.toFinset, rw.2)

/-- A positive_properties / negative_properties constructor argument: either
an iterable of raw labels and Properties, or an already-built frozenset of
Properties (as passed by promote_properties). Feeding a nonempty frozenset of
Properties through make_property_set iterates it and rebuilds an equal
frozenset (and an empty one yields EMPTY_SET), so that path is modeled as the
identity on the set, keeping the Property type check on every element. -/
inductive PropsArg where
  | items (ps : List PropInput)
  | pset (s : Finset InternedString)

/-- make_property_set as invoked by the constructor on either argument form. -/
def make_property_set_arg (w : World) : PropsArg → Option (Finset InternedString × World)
  | .items ps => make_property_set w ps
  | .pset s => if ∀ x ∈ s, x.is_property = true then some (s, w) else none

/-- A name argument: a raw str or an already-interned symbol. -/
inductive NameInput where
  | raw (s : RawStr)
  | sym (i : InternedString)

/-- Lines 155-158 of Category.__cinit__: a str name is interned through the
category name interner; any other name is used as the InternedString it is. -/
def resolveName (w : World) : NameInput → InternedString × World
  | .raw s => w.internName s
  | .sym i => (i, w)

/-- Hash arithmetic in the source is C long arithmetic; hash values are
modeled as 64-bit patterns. -/
def W64 : Nat := 18446744073709551616

instance : Std.Commutative (α := Nat) (· ^^^ ·) := ⟨Nat.xor_comm⟩

instance : Std.Associative (α := Nat) (· ^^^ ·) := ⟨Nat.xor_assoc⟩

/-- hash(prop) << 1 (line 165), truncated to 64 bits. -/
def posTerm (p : InternedString) : Nat := ((interned_hash p % W64) <<< 1) % W64

/-- -hash(prop) << 2 (line 167): negation in two's complement, shifted,
truncated to 64 bits. -/
def negTerm (p : InternedString) : Nat :=
  (((W64 - interned_hash p % W64) % W64) <<< 2) % W64

/-- The hash computation of Category.__cinit__ (lines 163-167): start from the
hash of the name and XOR in one term per positive and one per negative
property. XOR is commutative and associative, so folding over the sets is
well-defined, exactly as iteration order over a frozenset is immaterial. -/
def xorFold (b : Nat) (f : InternedString → Nat) (s : Finset InternedString) : Nat :=
  Finset.fold (· ^^^ ·) b f s

/-- Lines 163-167 as one function of the constructor arguments. -/
def categoryHash (name : InternedString) (pos neg : Finset InternedString) : Nat :=
  xorFold (interned_hash name % W64) posTerm pos ^^^ xorFold 0 negTerm neg

/-- class Category (lines 122-299): the stored name, the two frozensets of
properties, and the hash cached at construction (_hash). -/
structure Category where
  name : InternedString
  positive_properties : Finset InternedString
  negative_properties : Finset InternedString
  hash_value : Nat
deriving DecidableEq

/-- Category.__cinit__ (lines 147-180): resolve the name, normalize both
property sets, compute the hash, and raise (a ValueError whose message lists
every offending property, modeled as the error carrying the whole
intersection) when some property is both positive and negative. -/
def categoryInit (w : World) (name : NameInput) (positive negative : PropsArg) :
    Option (Except (Finset InternedString) (Category × World)) :=
  let rn := resolveName w name
  match make_property_set_arg rn.2 positive with
  | none => none
  | some pw =>
    match make_property_set_arg pw.2 negative with
    | none => none
    | some nw =>
      let both := pw.1 ∩ nw.1
      if both = ∅ then
        some (.ok (⟨rn.1, pw.1, nw.1, categoryHash rn.1 pw.1 nw.1⟩, nw.2))
      else
        some (.error both)

/-- Category.is_wildcard (lines 287-288): the name is the module-level
CATEGORY_WILDCARD object. -/
def is_wildcard (self : Category) : Bool := decide (self.name = CATEGORY_WILDCARD)

/-- Structural equality of two Category records, computed fieldwise. Python
object identity of two Category values implies it, and it implies every
clause the identity fast paths of __eq__ and __contains__ shortcut, so it
models the self-is-other tests faithfully. -/
def category_beq (self other : Category) : Bool :=
  decide (self.name = other.name) &&
    decide (self.positive_properties = other.positive_properties) &&
    decide (self.negative_properties = other.negative_properties) &&
    decide (self.hash_value = other.hash_value)

/-- Category.__contains__ (lines 277-285). Identity of interned symbols is
structural equality here; the identity fast path on the two Category objects
is modeled by structural equality of the records (Python identity implies it,
and for every constructed Category the fast path agrees with the general
clause, whose three conjuncts hold reflexively). -/
def contains (self other : Category) : Bool :=
  category_beq self other ||
    ((decide (self.name = other.name) || is_wildcard self) &&
      decide (self.positive_properties ⊆ other.positive_properties) &&
      decide (self.negative_properties ∩ other.positive_properties = ∅))

/-- Category.__eq__ (lines 233-240): the identity fast path, or equal cached
hashes, identical interned name, and equal property sets. -/
def category_eq (self other : Category) : Bool :=
  category_beq self other ||
    (decide (self.hash_value = other.hash_value) &&
      decide (self.name = other.name) &&
      decide (self.positive_properties = other.positive_properties) &&
      decide (self.negative_properties = other.negative_properties))

/-- Category.has_properties (lines 196-202): every argument, normalized by
Property.get, must lie in the positive set; stops at the first missing one. -/
def has_properties (w : World) (self : Category) : List PropInput → Option (Bool × World)
  | [] => some (true, w)
  | p :: rest =>
    match propertyGet w p with
    | none => none
    | some iw =>
      if iw.1 ∈ self.positive_properties then has_properties iw.2 self rest
      else some (false, iw.2)

/-- Category.lacks_properties (lines 204-210): no argument, normalized by
Property.get, may lie in the positive set; stops at the first present one. -/
def lacks_properties (w : World) (self : Category) : List PropInput → Option (Bool × World)
  | [] => some (true, w)
  | p :: rest =>
    match propertyGet w p with
    | none => none
    | some iw =>
      if iw.1 ∈ self.positive_properties then some (false, iw.2)
      else lacks_properties iw.2 self rest

/-- Category.promote_properties (lines 290-299): normalize both extras, then
construct a Category with the same name object, the stored positives plus the
new positives not already denied, and the stored negatives plus the new
negatives not already asserted. -/
def promote_properties (w : World) (self : Category) (positive negative : List PropInput) :
    Option (Except (Finset InternedString) (Category × World)) :=
  match make_property_set w positive with
  | none => none
  | some pw =>
    match make_property_set pw.2 negative with
    | none => none
    | some nw =>
      categoryInit nw.2 (.sym self.name)
        (.pset (self.positive_properties ∪ (pw.1 \ self.negative_properties)))
        (.pset (self.negative_properties ∪ (nw.1 \ self.positive_properties)))

/-- sorted(...) over a frozenset of Properties, by the Property order
(InternedString.__lt__). Properties of the one property interner are in
text-preserving bijection with their texts, and on such symbols Property
order and equality are text order and text equality, so the sorted list of
texts is an exact elementwise image of the sorted list of Property objects
(sorting with an inconsistent order never arises in a run: two distinct live
symbols of one interner never share a text). -/
def py_sorted (s : Finset InternedString) : List String :=
  Finset.sort (· ≤ ·) (s.image fun x => x.value.content)

/-- Python list < (lexicographic: the first unequal pair decides by <; a
proper prefix is smaller). -/
def pyListLt : List String → List String → Bool
  | [], [] => false
  | [], _ :: _ => true
  | _ :: _, [] => false
  | x :: xs, y :: ys => if x = y then pyListLt xs ys else decide (x < y)

/-- Python list <= (lexicographic: the first unequal pair decides by <; a
prefix, proper or not, is smaller or equal). -/
def pyListLe : List String → List String → Bool
  | [], _ => true
  | _ :: _, [] => false
  | x :: xs, y :: ys => if x = y then pyListLe xs ys else decide (x < y)

/-- Category.__lt__ (lines 258-269): name order first (identity shortcut on
interned names), then positive count, negative count, the sorted positive
lists, and finally a strict comparison of the sorted negative lists. -/
def category_lt (self other : Category) : Bool :=
  if self.name ≠ other.name then interned_lt self.name other.name
  else if self.positive_properties.card ≠ other.positive_properties.card then
    decide (self.positive_properties.card < other.positive_properties.card)
  else if self.negative_properties.card ≠ other.negative_properties.card then
    decide (self.negative_properties.card < other.negative_properties.card)
  else if py_sorted self.positive_properties ≠ py_sorted other.positive_properties then
    pyListLt (py_sorted self.positive_properties) (py_sorted other.positive_properties)
  else
    pyListLt (py_sorted self.negative_properties) (py_sorted other.negative_properties)

/-- Category.__le__ (lines 245-256): identical to __lt__ except that the final
comparison of the sorted negative lists is non-strict. -/
def category_le (self other : Category) : Bool :=
  if self.name ≠ other.name then interned_lt self.name other.name
  else if self.positive_properties.card ≠ other.positive_properties.card then
    decide (self.positive_properties.card < other.positive_properties.card)
  else if self.negative_properties.card ≠ other.negative_properties.card then
    decide (self.negative_properties.card < other.negative_properties.card)
  else if py_sorted self.positive_properties ≠ py_sorted other.positive_properties then
    pyListLt (py_sorted self.positive_properties) (py_sorted other.positive_properties)
  else
    pyListLe (py_sorted self.negative_properties) (py_sorted other.negative_properties)

/-- The invariants every Category built by __cinit__ satisfies: disjoint
property sets, every property a Property instance, and the cached hash equal
to the one computed at construction. -/
abbrev Category.valid (c : Category) : Prop :=
  c.positive_properties ∩ c.negative_properties = ∅ ∧
  (∀ x ∈ c.positive_properties, x.is_property = true) ∧
  (∀ x ∈ c.negative_properties, x.is_property = true) ∧
  c.hash_value = categoryHash c.name c.positive_properties c.negative_properties

/-- Interned symbols have pairwise distinct texts within each interner, so on
any collection of symbols drawn from one interner the text determines the
symbol. This is the reachability invariant every run maintains. -/
abbrev ContentInj (s : Finset InternedString) : Prop :=
  ∀ x ∈ s, ∀ y ∈ s, x.value.content = y.value.content → x = y

deriving instance DecidableEq for Except

/-! Concrete values used by the examples the spec states and by witnesses:
a handful of raw string objects and already-interned symbols with explicit
object identities, and categories built from them. -/

/-- A name symbol, as the name interner would allocate it. -/
def nNP : InternedString := ⟨100, ⟨100, "NP"⟩, false⟩

/-- A second name symbol. -/
def nVP : InternedString := ⟨101, ⟨101, "VP"⟩, false⟩

/-- A Property, as the property interner would allocate it. -/
def qPlural : InternedString := ⟨102, ⟨102, "plural"⟩, true⟩

/-- A second Property. -/
def qDefinite : InternedString := ⟨103, ⟨103, "definite"⟩, true⟩

/-- A third Property. -/
def qPast : InternedString := ⟨104, ⟨104, "past"⟩, true⟩

/-- A valid category NP(plural), with the hash the constructor would cache. -/
def catNPplural : Category := ⟨nNP, {qPlural}, ∅, categoryHash nNP {qPlural} ∅⟩

/-- A valid category NP(plural, definite). -/
def catNPboth : Category :=
  ⟨nNP, {qPlural, qDefinite}, ∅, categoryHash nNP {qPlural, qDefinite} ∅⟩

/-- A valid category VP with past denied. -/
def catVPnoPast : Category := ⟨nVP, ∅, {qPast}, categoryHash nVP ∅ {qPast}⟩

/-- The empty wildcard category. -/
def catWild : Category :=
  ⟨CATEGORY_WILDCARD, ∅, ∅, categoryHash CATEGORY_WILDCARD ∅ ∅⟩

/-- The subsumption examples of the spec, run through the real pipeline from
the freshly loaded module state: a = NP(plural), b = NP(plural, definite),
a2 = NP with negative plural, b2 = NP(plural); the results are
(a contains b, b contains a, a2 contains b2). -/
def exC1 : Option (Bool × Bool × Bool) :=
  match categoryInit world0 (.raw ⟨11, "NP"⟩) (.items [.raw ⟨12, "plural"⟩]) (.items []) with
  | some (.ok (a, w1)) =>
    match categoryInit w1 (.raw ⟨13, "NP"⟩)
        (.items [.raw ⟨14, "plural"⟩, .raw ⟨15, "definite"⟩]) (.items []) with
    | some (.ok (b, w2)) =>
      match categoryInit w2 (.raw ⟨16, "NP"⟩) (.items []) (.items [.raw ⟨17, "plural"⟩]) with
      | some (.ok (a2, w3)) =>
        match categoryInit w3 (.raw ⟨18, "NP"⟩) (.items [.raw ⟨19, "plural"⟩]) (.items []) with
        | some (.ok (b2, _)) => some (contains a b, contains b a, contains a2 b2)
        | _ => none
      | _ => none
    | _ => none
  | _ => none

/-- The promotion-precedence example of the spec: base = V with negative past,
promoted with extra positive past; the results are (the promoted category
asserts past, the promoted category denies past). -/
def exC2 : Option (Bool × Bool) :=
  match categoryInit world0 (.raw ⟨30, "V"⟩) (.items []) (.items [.raw ⟨31, "past"⟩]) with
  | some (.ok (base, w1)) =>
    match promote_properties w1 base [.raw ⟨32, "past"⟩] [] with
    | some (.ok (c, _)) =>
      some (decide (∃ x ∈ c.positive_properties, x.value.content = "past"),
            decide (∃ x ∈ c.negative_properties, x.value.content = "past"))
    | _ => none
  | _ => none

/-- A promotion run on which the constructor raises: base = N with no
properties at all, promoted with the same fresh property b both asserted
and denied. -/
def exC2counter : Option (Except (Finset InternedString) (Category × World)) :=
  match categoryInit world0 (.raw ⟨40, "N"⟩) (.items []) (.items []) with
  | some (.ok (base, w1)) => promote_properties w1 base [.raw ⟨41, "b"⟩] [.raw ⟨42, "b"⟩]
  | _ => none

/-- A second such run, on different data: base = V with no properties,
promoted with the same fresh property a both asserted and denied. -/
def exC3counter : Option (Except (Finset InternedString) (Category × World)) :=
  match categoryInit world0 (.raw ⟨20, "V"⟩) (.items []) (.items []) with
  | some (.ok (base, w1)) => promote_properties w1 base [.raw ⟨21, "a"⟩] [.raw ⟨22, "a"⟩]
  | _ => none

/-- Two equal categories built with the positive properties listed in opposite
orders. -/
def exC5 : Option Bool :=
  match categoryInit world0 (.raw ⟨50, "D"⟩)
      (.items [.raw ⟨51, "one"⟩, .raw ⟨52, "two"⟩]) (.items []) with
  | some (.ok (a, w1)) =>
    match categoryInit w1 (.raw ⟨53, "D"⟩)
        (.items [.raw ⟨54, "two"⟩, .raw ⟨55, "one"⟩]) (.items []) with
    | some (.ok (b, _)) => some (category_eq a b)
    | _ => none
  | _ => none

/-- The name symbol obtained by interning the string object 7 spelled NP
through the category name interner right after module load. -/
def exC9name : InternedString := (world0.internName ⟨7, "NP"⟩).1

/-- The Property obtained by then interning the same string object through the
property interner. -/
def exC9prop : InternedString := ((world0.internName ⟨7, "NP"⟩).2.internProp ⟨7, "NP"⟩).1

/-- A category asserting plural only, probed for the unrelated property
definite: the results are (lacks definite, has definite, has nothing). -/
def exC10 : Option (Bool × Bool × Bool) :=
  match lacks_properties world0 ⟨nNP, {qPlural}, ∅, 0⟩ [.sym qDefinite],
      has_properties world0 ⟨nNP, {qPlural}, ∅, 0⟩ [.sym qDefinite],
      has_properties world0 ⟨nNP, {qPlural}, ∅, 0⟩ [] with
  | some l, some h, some e => some (l.1, h.1, e.1)
  | _, _, _ => none

/-! Shared reachability lemmas: well-formedness of the process state is
preserved by every interning step, and everything the property pipeline
returns is a Property. -/

theorem wf_internName (w : World) (s : RawStr) (hw : w.wf) :
    (w.internName s).2.wf ∧ (w.internName s).1.is_property = false := by
  obtain ⟨h1, h2, h3, h4⟩ := hw
  unfold World.internName StringInterner.intern
  cases hd : dictLookup w.category_name_interner.intern_map s.content with
  | some r =>
      refine ⟨⟨h1, h2, h3, h4⟩, ?_⟩
      have : ∀ m v, dictLookup m s.content = some v →
          (∀ kv ∈ m, kv.2.is_property = false) → v.is_property = false := by
        intro m
        induction m with
        | nil => intro v hv _; simp [dictLookup] at hv
        | cons kv rest ih =>
            intro v hv hall
            simp only [dictLookup] at hv
            by_cases hk : kv.1 = s.content
            · rw [if_pos hk] at hv
              cases hv
              exact hall kv (List.mem_cons_self kv rest)
            · rw [if_neg hk] at hv
              exact ih v hv fun x hx => hall x (List.mem_cons_of_mem kv hx)
      exact this _ r hd h3
  | none =>
      refine ⟨⟨by simpa using h1, h2, ?_, h4⟩, by simp [h1]⟩
      intro kv hkv
      rcases List.mem_cons.mp hkv with h | h
      · rw [h]; simp [h1]
      · exact h3 kv h

theorem wf_internProp (w : World) (s : RawStr) (hw : w.wf) :
    (w.internProp s).2.wf ∧ (w.internProp s).1.is_property = true := by
  obtain ⟨h1, h2, h3, h4⟩ := hw
  unfold World.internProp StringInterner.intern
  cases hd : dictLookup w.property_interner.intern_map s.content with
  | some r =>
      refine ⟨⟨h1, h2, h3, h4⟩, ?_⟩
      have : ∀ m v, dictLookup m s.content = some v →
          (∀ kv ∈ m, kv.2.is_property = true) → v.is_property = true := by
        intro m
        induction m with
        | nil => intro v hv _; simp [dictLookup] at hv
        | cons kv rest ih =>
            intro v hv hall
            simp only [dictLookup] at hv
            by_cases hk : kv.1 = s.content
            · rw [if_pos hk] at hv
              cases hv
              exact hall kv (List.mem_cons_self kv rest)
            · rw [if_neg hk] at hv
              exact ih v hv fun x hx => hall x (List.mem_cons_of_mem kv hx)
      exact this _ r hd h4
  | none =>
      refine ⟨⟨h1, by simpa using h2, h3, ?_⟩, by simp [h2]⟩
      intro kv hkv
      rcases List.mem_cons.mp hkv with h | h
      · rw [h]; simp [h2]
      · exact h4 kv h

theorem wf_propertyGet (w : World) (x : PropInput) (r : InternedString × World)
    (hw : w.wf) (h : propertyGet w x = some r) :
    r.2.wf ∧ r.1.is_property = true := by
  cases x with
  | sym p =>
      simp only [propertyGet] at h
      by_cases hp : p.is_property
      · rw [if_pos hp] at h
        cases h
        exact ⟨hw, hp⟩
      · rw [if_neg hp] at h
        cases h
  | raw s =>
      simp only [propertyGet] at h
      cases h
      exact ⟨(wf_internProp w s hw).1, (wf_internProp w s hw).2⟩

theorem wf_make_property_items (ps : List PropInput) :
    ∀ (w : World) (r : List InternedString × World), w.wf →
      make_property_items w ps = some r →
      r.2.wf ∧ ∀ i ∈ r.1, i.is_property = true := by
  induction ps with
  | nil =>
      intro w r hw h
      simp only [make_property_items] at h
      cases h
      exact ⟨hw, by simp⟩
  | cons p rest ih =>
      intro w r hw h
      simp only [make_property_items] at h
      cases hg : propertyGet w p with
      | none => rw [hg] at h; cases h
      | some iw =>
          rw [hg] at h
          dsimp only at h
          cases hr : make_property_items iw.2 rest with
          | none => rw [hr] at h; cases h
          | some rw' =>
              rw [hr] at h
              dsimp only at h
              cases h
              have h1 := wf_propertyGet w p iw hw hg
              have h2 := ih iw.2 rw' h1.1 hr
              refine ⟨h2.1, ?_⟩
              intro i hi
              rcases List.mem_cons.mp hi with h | h
              · rw [h]; exact h1.2
              · exact h2.2 i h

theorem wf_make_property_set (w : World) (ps : List PropInput)
    (r : Finset InternedString × World) (hw : w.wf)
    (h : make_property_set w ps = some r) :
    r.2.wf ∧ ∀ i ∈ r.1, i.is_property = true := by
  cases ps with
  | nil =>
      simp only [make_property_set] at h
      cases h
      exact ⟨hw, by simp⟩
  | cons p rest =>
      simp only [make_property_set] at h
      cases hm : make_property_items w (p :: rest) with
      | none => rw [hm] at h; cases h
      | some rw' =>
          rw [hm] at h
          dsimp only at h
          cases h
          have := wf_make_property_items (p :: rest) w rw' hw hm
          refine ⟨this.1, ?_⟩
          intro i hi
          exact this.2 i (List.mem_toFinset.mp hi)

/-- category_beq decides structural equality of the records. -/
theorem category_beq_iff (a b : Category) : category_beq a b = true ↔ a = b := by
  cases a
  cases b
  simp only [category_beq, Bool.and_eq_true, decide_eq_true_iff, Category.mk.injEq]
  tauto

/-! Lemmas about the Python list comparisons on lists of strings. -/

theorem pyListLt_irrefl (xs : List String) : pyListLt xs xs = false := by
  induction xs with
  | nil => rfl
  | cons x xs ih => simp [pyListLt, ih]

theorem pyListLt_asymm (xs ys : List String) (h : pyListLt xs ys = true) :
    pyListLt ys xs = false := by
  induction xs generalizing ys with
  | nil =>
      cases ys with
      | nil => simp [pyListLt] at h
      | cons y ys => rfl
  | cons x xs ih =>
      cases ys with
      | nil => simp [pyListLt] at h
      | cons y ys =>
          simp only [pyListLt] at h ⊢
          by_cases hxy : x = y
          · rw [if_pos hxy] at h
            rw [if_pos hxy.symm]
            exact ih ys h
          · rw [if_neg hxy] at h
            rw [if_neg fun hyx => hxy hyx.symm]
            simp only [decide_eq_true_iff] at h
            simpa using le_of_lt h

theorem pyListLt_connex (xs ys : List String) (h : xs ≠ ys) :
    pyListLt xs ys = true ∨ pyListLt ys xs = true := by
  induction xs generalizing ys with
  | nil =>
      cases ys with
      | nil => exact absurd rfl h
      | cons y ys => left; rfl
  | cons x xs ih =>
      cases ys with
      | nil => right; rfl
      | cons y ys =>
          by_cases hxy : x = y
          · have hs : xs ≠ ys := by
              intro he
              exact h (by rw [hxy, he])
            rcases ih ys hs with h1 | h1
            · left; simp [pyListLt, hxy, h1]
            · right; simp [pyListLt, hxy.symm, h1]
          · rcases lt_trichotomy x y with h1 | h1 | h1
            · left; simp [pyListLt, hxy, h1]
            · exact absurd h1 hxy
            · right
              have hyx : ¬y = x := fun he => hxy he.symm
              simp [pyListLt, hyx, h1]

theorem pyListLe_eq_lt_or_eq (xs ys : List String) :
    pyListLe xs ys = (pyListLt xs ys || decide (xs = ys)) := by
  induction xs generalizing ys with
  | nil => cases ys with
    | nil => rfl
    | cons y ys => rfl
  | cons x xs ih =>
      cases ys with
      | nil => rfl
      | cons y ys =>
          simp only [pyListLe, pyListLt]
          by_cases hxy : x = y
          · rw [if_pos hxy, if_pos hxy, ih]
            subst hxy
            simp
          · rw [if_neg hxy, if_neg hxy]
            have : ¬(x :: xs = y :: ys) := by simp [hxy]
            simp [this]

/-! Sorted text lists determine the property sets of interned symbols. -/

theorem image_content_inj (s t : Finset InternedString)
    (h : ContentInj (s ∪ t))
    (him : s.image (fun x => x.value.content) = t.image (fun x => x.value.content)) :
    s = t := by
  ext x
  constructor
  · intro hx
    have : x.value.content ∈ t.image (fun x => x.value.content) := by
      rw [← him]
      exact Finset.mem_image_of_mem _ hx
    rcases Finset.mem_image.mp this with ⟨y, hy, hxy⟩
    have := h x (Finset.mem_union_left t hx) y (Finset.mem_union_right s hy) hxy.symm
    rw [this]
    exact hy
  · intro hx
    have : x.value.content ∈ s.image (fun x => x.value.content) := by
      rw [him]
      exact Finset.mem_image_of_mem _ hx
    rcases Finset.mem_image.mp this with ⟨y, hy, hxy⟩
    have := h x (Finset.mem_union_right s hx) y (Finset.mem_union_left t hy) hxy.symm
    rw [this]
    exact hy

theorem py_sorted_inj (s t : Finset InternedString)
    (h : ContentInj (s ∪ t)) (he : py_sorted s = py_sorted t) : s = t := by
  apply image_content_inj s t h
  have := congrArg List.toFinset he
  rwa [py_sorted, py_sorted, Finset.sort_toFinset, Finset.sort_toFinset] at this

/-- The intersection the promotion constructor checks, reduced: with the base
sets disjoint, only a property both freshly asserted and freshly denied can
survive into the intersection. -/
theorem promote_inter (A B P N : Finset InternedString) (hAB : A ∩ B = ∅) :
    (A ∪ (P \ B)) ∩ (B ∪ (N \ A)) = (P \ B) ∩ (N \ A) := by
  ext x
  simp only [Finset.mem_inter, Finset.mem_union, Finset.mem_sdiff]
  constructor
  · rintro ⟨hA | ⟨hP, hB⟩, hBB | ⟨hN, hAA⟩⟩
    · exact absurd (Finset.mem_inter.mpr ⟨hA, hBB⟩) (by simp [hAB])
    · exact absurd hA hAA
    · exact absurd hBB hB
    · exact ⟨⟨hP, hB⟩, hN, hAA⟩
  · rintro ⟨⟨hP, hB⟩, hN, hA⟩
    exact ⟨Or.inr ⟨hP, hB⟩, Or.inr ⟨hN, hA⟩⟩

/-! The loops of has_properties and lacks_properties, characterized against
the full normalization of the same argument list. -/

theorem has_properties_spec (ps : List PropInput) :
    ∀ (w : World) (c : Category) (r : List InternedString × World),
      make_property_items w ps = some r →
      ∃ b w1, has_properties w c ps = some (b, w1) ∧
        (b = true ↔ ∀ i ∈ r.1, i ∈ c.positive_properties) := by
  induction ps with
  | nil =>
      intro w c r h
      simp only [make_property_items] at h
      cases h
      exact ⟨true, w, rfl, by simp⟩
  | cons p rest ih =>
      intro w c r h
      simp only [make_property_items] at h
      cases hg : propertyGet w p with
      | none => rw [hg] at h; cases h
      | some iw =>
          rw [hg] at h
          dsimp only at h
          cases hr : make_property_items iw.2 rest with
          | none => rw [hr] at h; cases h
          | some rw' =>
              rw [hr] at h
              dsimp only at h
              cases h
              simp only [has_properties, hg]
              by_cases hm : iw.1 ∈ c.positive_properties
              · rw [if_pos hm]
                rcases ih iw.2 c rw' hr with ⟨b, w1, hb, hiff⟩
                refine ⟨b, w1, hb, ?_⟩
                rw [hiff]
                constructor
                · intro hall i hi
                  rcases List.mem_cons.mp hi with he | he
                  · rw [he]; exact hm
                  · exact hall i he
                · intro hall i hi
                  exact hall i (List.mem_cons_of_mem _ hi)
              · rw [if_neg hm]
                refine ⟨false, iw.2, rfl, iff_of_false (by simp) ?_⟩
                intro hall
                exact hm (hall iw.1 (List.mem_cons_self _ _))

theorem lacks_properties_spec (ps : List PropInput) :
    ∀ (w : World) (c : Category) (r : List InternedString × World),
      make_property_items w ps = some r →
      ∃ b w1, lacks_properties w c ps = some (b, w1) ∧
        (b = true ↔ ∀ i ∈ r.1, i ∉ c.positive_properties) := by
  induction ps with
  | nil =>
      intro w c r h
      simp only [make_property_items] at h
      cases h
      exact ⟨true, w, rfl, by simp⟩
  | cons p rest ih =>
      intro w c r h
      simp only [make_property_items] at h
      cases hg : propertyGet w p with
      | none => rw [hg] at h; cases h
      | some iw =>
          rw [hg] at h
          dsimp only at h
          cases hr : make_property_items iw.2 rest with
          | none => rw [hr] at h; cases h
          | some rw' =>
              rw [hr] at h
              dsimp only at h
              cases h
              simp only [lacks_properties, hg]
              by_cases hm : iw.1 ∈ c.positive_properties
              · rw [if_pos hm]
                refine ⟨false, iw.2, rfl, iff_of_false (by simp) ?_⟩
                intro hall
                exact hall iw.1 (List.mem_cons_self _ _) hm
              · rw [if_neg hm]
                rcases ih iw.2 c rw' hr with ⟨b, w1, hb, hiff⟩
                refine ⟨b, w1, hb, ?_⟩
                rw [hiff]
                constructor
                · intro hall i hi
                  rcases List.mem_cons.mp hi with he | he
                  · rw [he]; exact hm
                  · exact hall i he
                · intro hall i hi
                  exact hall i (List.mem_cons_of_mem _ hi)

/-! The claims. -/

/-- C1: contains(pattern, candidate) is true exactly when pattern and
candidate are the identical object, or the names are the identical interned
symbol (or the pattern is wildcard-named), the pattern positives are a subset
of the candidate positives, and the pattern negatives are disjoint from the
candidate positives; on the spec examples, NP(plural) contains
NP(plural, definite) but not conversely, and NP with negative plural does not
contain NP(plural). -/
theorem c1_subsumption :
    (∀ p c : Category, contains p c = true ↔
      (p = c ∨ ((p.name = c.name ∨ p.name = CATEGORY_WILDCARD) ∧
        p.positive_properties ⊆ c.positive_properties ∧
        p.negative_properties ∩ c.positive_properties = ∅))) ∧
    exC1 = some (true, false, false) := by
  refine ⟨?_, by decide⟩
  intro p c
  simp only [contains, is_wildcard, Bool.or_eq_true, Bool.and_eq_true,
    decide_eq_true_iff, and_assoc, category_beq_iff]

/-- C8: subsumption is reflexive (identically and on equal valid categories),
and a wildcard-named category with empty property sets contains every
category. -/
theorem c8_reflexive_wildcard :
    (∀ a : Category, contains a a = true) ∧
    (∀ a b : Category, a.name = b.name →
      a.positive_properties = b.positive_properties →
      a.negative_properties = b.negative_properties →
      a.positive_properties ∩ a.negative_properties = ∅ →
      contains a b = true) ∧
    (∀ q b : Category, q.name = CATEGORY_WILDCARD → q.positive_properties = ∅ →
      q.negative_properties = ∅ → contains q b = true) := by
  refine ⟨?_, ?_, ?_⟩
  · intro a
    simp [contains, category_beq]
  · intro a b hn hp hq hd
    simp only [contains, Bool.or_eq_true, Bool.and_eq_true, decide_eq_true_iff]
    right
    refine ⟨⟨Or.inl hn, ?_⟩, ?_⟩
    · rw [hp]
    · rw [← hp, Finset.inter_comm]
      exact hd
  · intro q b hn hp hq
    simp [contains, is_wildcard, hn, hp, hq]

/-- Witness for C8 at concrete categories: NP(plural) contains itself, a
structurally equal copy of NP(plural) is contained, and the empty wildcard
category contains NP(plural, definite). -/
theorem c8_reflexive_wildcard_witness :
    contains catNPplural catNPplural = true ∧
    contains catNPplural catNPplural = true ∧
    contains catWild catNPboth = true :=
  ⟨c8_reflexive_wildcard.1 catNPplural,
   c8_reflexive_wildcard.2.1 catNPplural catNPplural rfl rfl rfl (by decide),
   c8_reflexive_wildcard.2.2 catWild catNPboth rfl rfl rfl⟩

/-- C5: on categories whose cached hash is the one computed at construction,
equality holds exactly for an identical interned name and equal positive and
negative sets (irrespective of construction order, as the concrete
reversed-order build shows), and equal categories have equal hashes. -/
theorem c5_equality_hash (a b : Category)
    (ha : a.hash_value = categoryHash a.name a.positive_properties a.negative_properties)
    (hb : b.hash_value = categoryHash b.name b.positive_properties b.negative_properties) :
    ((category_eq a b = true) ↔
      (a.name = b.name ∧ a.positive_properties = b.positive_properties ∧
        a.negative_properties = b.negative_properties)) ∧
    (category_eq a b = true → a.hash_value = b.hash_value) ∧
    exC5 = some true := by
  refine ⟨⟨?_, ?_⟩, ?_, by decide⟩
  · intro h
    simp only [category_eq, Bool.or_eq_true, Bool.and_eq_true, decide_eq_true_iff,
      category_beq_iff] at h
    rcases h with h | ⟨⟨⟨_, hn⟩, hp⟩, hq⟩
    · rw [h]
      exact ⟨rfl, rfl, rfl⟩
    · exact ⟨hn, hp, hq⟩
  · rintro ⟨hn, hp, hq⟩
    simp only [category_eq, Bool.or_eq_true, Bool.and_eq_true, decide_eq_true_iff]
    right
    refine ⟨⟨⟨?_, hn⟩, hp⟩, hq⟩
    rw [ha, hb, hn, hp, hq]
  · intro h
    simp only [category_eq, Bool.or_eq_true, Bool.and_eq_true, decide_eq_true_iff,
      category_beq_iff] at h
    rcases h with h | ⟨⟨⟨hh, _⟩, _⟩, _⟩
    · rw [h]
    · exact hh

/-- Witness for C5 at the concrete categories NP(plural) and
NP(plural, definite), whose cached hashes are the constructed ones. -/
theorem c5_equality_hash_witness :
    (catNPplural.hash_value =
        categoryHash catNPplural.name catNPplural.positive_properties
          catNPplural.negative_properties ∧
      catNPboth.hash_value =
        categoryHash catNPboth.name catNPboth.positive_properties
          catNPboth.negative_properties) ∧
    ((category_eq catNPplural catNPboth = true) ↔
      (catNPplural.name = catNPboth.name ∧
        catNPplural.positive_properties = catNPboth.positive_properties ∧
        catNPplural.negative_properties = catNPboth.negative_properties)) :=
  ⟨⟨by decide, by decide⟩,
   (c5_equality_hash catNPplural catNPboth (by decide) (by decide)).1⟩

/-- C10: has_properties is true exactly when every normalized argument lies in
the positive set, lacks_properties exactly when none does; the two are not
mutual negations, as the concrete probe of a property in neither set shows
(lacks passes, has fails, has of no arguments passes). -/
theorem c10_has_lacks (w : World) (c : Category) (ps : List PropInput)
    (r : List InternedString × World)
    (h : make_property_items w ps = some r) :
    (∃ b w1, has_properties w c ps = some (b, w1) ∧
      (b = true ↔ ∀ i ∈ r.1, i ∈ c.positive_properties)) ∧
    (∃ b w1, lacks_properties w c ps = some (b, w1) ∧
      (b = true ↔ ∀ i ∈ r.1, i ∉ c.positive_properties)) ∧
    exC10 = some (true, false, true) :=
  ⟨has_properties_spec ps w c r h, lacks_properties_spec ps w c r h, by decide⟩

/-- Witness for C10: probing NP(plural) for the absent property definite. -/
theorem c10_has_lacks_witness :
    make_property_items world0 [.sym qDefinite] = some ([qDefinite], world0) ∧
    ((∃ b w1, has_properties world0 catNPplural [.sym qDefinite] = some (b, w1) ∧
        (b = true ↔ ∀ i ∈ [qDefinite], i ∈ catNPplural.positive_properties)) ∧
      (∃ b w1, lacks_properties world0 catNPplural [.sym qDefinite] = some (b, w1) ∧
        (b = true ↔ ∀ i ∈ [qDefinite], i ∉ catNPplural.positive_properties)) ∧
      exC10 = some (true, false, true)) :=
  ⟨by decide,
   c10_has_lacks world0 catNPplural [.sym qDefinite] ([qDefinite], world0) (by decide)⟩

/-- C4: Category construction fails exactly when the normalized positive and
negative sets intersect, the failure reports every property of the
intersection, and a successful construction yields disjoint stored sets. -/
theorem c4_construction_validation (w : World) (n : NameInput)
    (pos neg : List PropInput) (iname : InternedString) (w1 w2 w3 : World)
    (P N : Finset InternedString)
    (hn : resolveName w n = (iname, w1))
    (hP : make_property_set w1 pos = some (P, w2))
    (hN : make_property_set w2 neg = some (N, w3)) :
    (P ∩ N ≠ ∅ →
      categoryInit w n (.items pos) (.items neg) = some (.error (P ∩ N))) ∧
    (P ∩ N = ∅ →
      ∃ c, categoryInit w n (.items pos) (.items neg) = some (.ok (c, w3)) ∧
        c.positive_properties ∩ c.negative_properties = ∅ ∧
        c.positive_properties = P ∧ c.negative_properties = N ∧ c.name = iname) := by
  have hbody : categoryInit w n (.items pos) (.items neg) =
      (if P ∩ N = ∅ then
        some (.ok (⟨iname, P, N, categoryHash iname P N⟩, w3))
      else some (.error (P ∩ N))) := by
    simp only [categoryInit, make_property_set_arg]
    rw [hn]
    dsimp only
    rw [hP]
    dsimp only
    rw [hN]
  constructor
  · intro hne
    rw [hbody, if_neg hne]
  · intro he
    rw [hbody, if_pos he]
    exact ⟨_, rfl, he, rfl, rfl, rfl⟩

/-- Witness for C4: constructing NP with plural both asserted and denied (the
spec example) through the concrete pipeline; the intersection is nonempty, so
the implications of the theorem apply with the failing branch active. -/
theorem c4_construction_validation_witness :
    (resolveName world0 (.raw ⟨60, "NP"⟩) =
        (⟨2, ⟨60, "NP"⟩, false⟩, (world0.internName ⟨60, "NP"⟩).2) ∧
      make_property_set (world0.internName ⟨60, "NP"⟩).2 [.sym qPlural] =
        some ({qPlural}, (world0.internName ⟨60, "NP"⟩).2) ∧
      make_property_set (world0.internName ⟨60, "NP"⟩).2 [.sym qPlural] =
        some ({qPlural}, (world0.internName ⟨60, "NP"⟩).2) ∧
      ({qPlural} : Finset InternedString) ∩ {qPlural} ≠ ∅) ∧
    categoryInit world0 (.raw ⟨60, "NP"⟩) (.items [.sym qPlural])
        (.items [.sym qPlural]) =
      some (.error (({qPlural} : Finset InternedString) ∩ {qPlural})) :=
  ⟨⟨by decide, by decide, by decide, by decide⟩,
   (c4_construction_validation world0 (.raw ⟨60, "NP"⟩) [.sym qPlural] [.sym qPlural]
      ⟨2, ⟨60, "NP"⟩, false⟩ (world0.internName ⟨60, "NP"⟩).2
      (world0.internName ⟨60, "NP"⟩).2 (world0.internName ⟨60, "NP"⟩).2
      {qPlural} {qPlural} (by decide) (by decide) (by decide)).1 (by decide)⟩

/-- What one promotion call computes, for a well-formed state and a valid
base: the constructor receives the two merged sets, and succeeds or raises
according to whether a property is both freshly asserted and freshly denied. -/
theorem promote_properties_run (w : World) (base : Category) (pos neg : List PropInput)
    (hw : w.wf) (hv : base.valid) (P N : Finset InternedString) (w1 w2 : World)
    (hP : make_property_set w pos = some (P, w1))
    (hN : make_property_set w1 neg = some (N, w2)) :
    promote_properties w base pos neg =
      if (P \ base.negative_properties) ∩ (N \ base.positive_properties) = ∅ then
        some (.ok (⟨base.name,
          base.positive_properties ∪ (P \ base.negative_properties),
          base.negative_properties ∪ (N \ base.positive_properties),
          categoryHash base.name
            (base.positive_properties ∪ (P \ base.negative_properties))
            (base.negative_properties ∪ (N \ base.positive_properties))⟩, w2))
      else
        some (.error ((P \ base.negative_properties) ∩ (N \ base.positive_properties))) := by
  obtain ⟨hd, hbp, hbn, _⟩ := hv
  have hPw := wf_make_property_set w pos (P, w1) hw hP
  have hNw := wf_make_property_set w1 neg (N, w2) hPw.1 hN
  have hA : ∀ x ∈ base.positive_properties ∪ (P \ base.negative_properties),
      x.is_property = true := by
    intro x hx
    rcases Finset.mem_union.mp hx with h | h
    · exact hbp x h
    · exact hPw.2 x (Finset.mem_sdiff.mp h).1
  have hB : ∀ x ∈ base.negative_properties ∪ (N \ base.positive_properties),
      x.is_property = true := by
    intro x hx
    rcases Finset.mem_union.mp hx with h | h
    · exact hbn x h
    · exact hNw.2 x (Finset.mem_sdiff.mp h).1
  simp only [promote_properties]
  rw [hP]
  dsimp only
  rw [hN]
  dsimp only
  simp only [categoryInit, make_property_set_arg, resolveName]
  rw [if_pos hA]
  dsimp only
  rw [if_pos hB]
  dsimp only
  rw [promote_inter _ _ _ _ hd]

/-- C3 (amended): on a valid base, promotion runs the constructor without
raising exactly when no property lies both in extra_positive minus the base
negatives and in extra_negative minus the base positives; in particular it
cannot raise when the normalized extras are disjoint, but extras sharing a
fresh property do make it raise. -/
theorem c3_promotion_totality (w : World) (base : Category) (pos neg : List PropInput)
    (hw : w.wf) (hv : base.valid) (P N : Finset InternedString) (w1 w2 : World)
    (hP : make_property_set w pos = some (P, w1))
    (hN : make_property_set w1 neg = some (N, w2)) :
    (∃ c, promote_properties w base pos neg = some (.ok (c, w2))) ↔
      (P \ base.negative_properties) ∩ (N \ base.positive_properties) = ∅ := by
  rw [promote_properties_run w base pos neg hw hv P N w1 w2 hP hN]
  by_cases hc : (P \ base.negative_properties) ∩ (N \ base.positive_properties) = ∅
  · rw [if_pos hc]
    exact ⟨fun _ => hc, fun _ => ⟨_, rfl⟩⟩
  · rw [if_neg hc]
    constructor
    · rintro ⟨c, hcc⟩
      simp at hcc
    · intro h
      exact absurd h hc

/-- Counterexample to C3 as stated: promoting the valid, property-free
category V with the same fresh property a both asserted and denied makes the
constructor raise, so promotion does not succeed for every choice of extras. -/
theorem c3_promotion_totality_counterexample :
    exC3counter = some (.error {⟨3, ⟨21, "a"⟩, true⟩}) := by decide

/-- Witness for C3 (amended): promoting VP(-past) with plural asserted and
nothing denied; the success condition holds and promotion returns ok. -/
theorem c3_promotion_totality_witness :
    (World.wf world0 ∧ catVPnoPast.valid ∧
      make_property_set world0 [.sym qPlural] = some ({qPlural}, world0) ∧
      make_property_set world0 [] = some (∅, world0)) ∧
    ((∃ c, promote_properties world0 catVPnoPast [.sym qPlural] [] =
        some (.ok (c, world0))) ↔
      ({qPlural} \ catVPnoPast.negative_properties) ∩
        (∅ \ catVPnoPast.positive_properties) = ∅) :=
  ⟨⟨by decide, by decide, by decide, by decide⟩,
   c3_promotion_totality world0 catVPnoPast [.sym qPlural] []
     (by decide) (by decide) {qPlural} ∅ world0 world0 (by decide) (by decide)⟩

/-- C2 (amended): on a valid base, whenever no property lies both in
extra_positive minus the base negatives and in extra_negative minus the base
positives (the condition the counterexample forces; without it the
constructor raises instead of returning), promotion returns a Category with
the same name, positive set base.positive union (extras minus base.negative),
and negative set base.negative union (extras minus base.positive); the spec
example keeps past denied and not asserted. -/
theorem c2_promotion_sets (w : World) (base : Category) (pos neg : List PropInput)
    (hw : w.wf) (hv : base.valid) (P N : Finset InternedString) (w1 w2 : World)
    (hP : make_property_set w pos = some (P, w1))
    (hN : make_property_set w1 neg = some (N, w2))
    (hc : (P \ base.negative_properties) ∩ (N \ base.positive_properties) = ∅) :
    (∃ c, promote_properties w base pos neg = some (.ok (c, w2)) ∧
      c.name = base.name ∧
      c.positive_properties = base.positive_properties ∪ (P \ base.negative_properties) ∧
      c.negative_properties = base.negative_properties ∪ (N \ base.positive_properties)) ∧
    exC2 = some (false, true) := by
  refine ⟨?_, by decide⟩
  rw [promote_properties_run w base pos neg hw hv P N w1 w2 hP hN, if_pos hc]
  exact ⟨_, rfl, rfl, rfl, rfl⟩

/-- Counterexample to C2 as stated: promoting the valid, property-free
category N with the same fresh property b both asserted and denied returns no
Category at all; the constructor raises on the merged sets. -/
theorem c2_promotion_sets_counterexample :
    exC2counter = some (.error {⟨3, ⟨41, "b"⟩, true⟩}) := by decide

/-- Witness for C2 (amended): promoting NP(plural) with past asserted and
nothing denied. -/
theorem c2_promotion_sets_witness :
    (World.wf world0 ∧ catNPplural.valid ∧
      make_property_set world0 [.sym qPast] = some ({qPast}, world0) ∧
      make_property_set world0 [] = some (∅, world0) ∧
      ({qPast} \ catNPplural.negative_properties) ∩
        (∅ \ catNPplural.positive_properties) = ∅) ∧
    ((∃ c, promote_properties world0 catNPplural [.sym qPast] [] =
        some (.ok (c, world0)) ∧
      c.name = catNPplural.name ∧
      c.positive_properties =
        catNPplural.positive_properties ∪ ({qPast} \ catNPplural.negative_properties) ∧
      c.negative_properties =
        catNPplural.negative_properties ∪ (∅ \ catNPplural.positive_properties)) ∧
      exC2 = some (false, true)) :=
  ⟨⟨by decide, by decide, by decide, by decide, by decide⟩,
   c2_promotion_sets world0 catNPplural [.sym qPast] []
     (by decide) (by decide) {qPast} ∅ world0 world0
     (by decide) (by decide) (by decide)⟩

/-- C7: interning is idempotent and canonical: after one intern call, any
further intern of an equal string on that interner returns the identical
symbol and leaves the interner unchanged (so all later calls agree as well);
Property.get returns an already-interned Property unchanged; and Property.get
applied to any of its own results is the identity on symbol and state. -/
theorem c7_interning_idempotent (st : StringInterner) (next : Nat) (s t : RawStr)
    (hst : t.content = s.content) (w : World) (p : InternedString)
    (hp : p.is_property = true) (w2 : World) (x : PropInput)
    (r : InternedString × World) (hw2 : w2.wf)
    (hx : propertyGet w2 x = some r) :
    (st.intern next s).2.1.intern (st.intern next s).2.2 t = st.intern next s ∧
    propertyGet w (.sym p) = some (p, w) ∧
    propertyGet r.2 (.sym r.1) = some (r.1, r.2) := by
  refine ⟨?_, by simp [propertyGet, hp], ?_⟩
  · cases hd : dictLookup st.intern_map s.content with
    | some v =>
        have h1 : st.intern next s = (v, st, next) := by
          unfold StringInterner.intern
          rw [hd]
        rw [h1]
        unfold StringInterner.intern
        rw [hst, hd]
    | none =>
        have h1 : st.intern next s =
            (⟨next, s, st.subtype_is_property⟩,
              ⟨(s.content, ⟨next, s, st.subtype_is_property⟩) :: st.intern_map,
                st.subtype_is_property⟩, next + 1) := by
          unfold StringInterner.intern
          rw [hd]
        rw [h1]
        unfold StringInterner.intern
        simp [dictLookup, hst]
  · have h2 := wf_propertyGet w2 x r hw2 hx
    simp [propertyGet, h2.2]

/-- Witness for C7: a fresh Property interner, two distinct string objects
spelled x, and a concrete Property.get run from the loaded module state. -/
theorem c7_interning_idempotent_witness :
    ((⟨3, "x"⟩ : RawStr).content = (⟨2, "x"⟩ : RawStr).content ∧
      qPlural.is_property = true ∧ World.wf world0 ∧
      propertyGet world0 (.raw ⟨4, "q"⟩) =
        some ((world0.internProp ⟨4, "q"⟩).1, (world0.internProp ⟨4, "q"⟩).2)) ∧
    ((⟨[], true⟩ : StringInterner).intern 5 ⟨2, "x"⟩).2.1.intern
        ((⟨[], true⟩ : StringInterner).intern 5 ⟨2, "x"⟩).2.2 ⟨3, "x"⟩ =
      (⟨[], true⟩ : StringInterner).intern 5 ⟨2, "x"⟩ :=
  ⟨⟨by decide, by decide, by decide, by decide⟩,
   (c7_interning_idempotent ⟨[], true⟩ 5 ⟨2, "x"⟩ ⟨3, "x"⟩ (by decide)
      world0 qPlural (by decide) world0 (.raw ⟨4, "q"⟩)
      ((world0.internProp ⟨4, "q"⟩).1, (world0.internProp ⟨4, "q"⟩).2)
      (by decide) (by decide)).1⟩

/-- C9 (amended): a name symbol is never a Property and a property symbol
always is (the kinds stay distinct), but the two are not guaranteed to
compare unequal: InternedString equality compares the identity of the
underlying string objects, so the name symbol and the Property for an equal
spelling compare equal exactly when they wrap the identical string object. -/
theorem c9_kind_separation (w : World) (s t : RawStr) (hw : w.wf)
    (hc : s.content = t.content) :
    (w.internName s).1.is_property = false ∧
    ((w.internName s).2.internProp t).1.is_property = true ∧
    (interned_eq (w.internName s).1 ((w.internName s).2.internProp t).1 = true ↔
      (w.internName s).1.value = ((w.internName s).2.internProp t).1.value) :=
  ⟨(wf_internName w s hw).2,
   (wf_internProp (w.internName s).2 t (wf_internName w s hw).1).2,
   by simp [interned_eq]⟩

/-- Counterexample to C9 as stated: interning the single string object 7
spelled NP first as a category name and then as a property yields two
distinct symbols of different kinds that nevertheless compare equal, because
they wrap the identical string object. -/
theorem c9_kind_separation_counterexample :
    interned_eq exC9name exC9prop = true ∧
    exC9name.is_property = false ∧ exC9prop.is_property = true ∧
    exC9name ≠ exC9prop ∧
    exC9name.value.content = exC9prop.value.content := by decide

/-- Witness for C9 (amended): two distinct string objects both spelled NP;
the resulting name symbol and Property wrap distinct string objects and so
compare unequal, while the kinds come out as stated. -/
theorem c9_kind_separation_witness :
    (World.wf world0 ∧ (⟨8, "NP"⟩ : RawStr).content = (⟨9, "NP"⟩ : RawStr).content) ∧
    ((world0.internName ⟨8, "NP"⟩).1.is_property = false ∧
      ((world0.internName ⟨8, "NP"⟩).2.internProp ⟨9, "NP"⟩).1.is_property = true ∧
      (interned_eq (world0.internName ⟨8, "NP"⟩).1
          ((world0.internName ⟨8, "NP"⟩).2.internProp ⟨9, "NP"⟩).1 = true ↔
        (world0.internName ⟨8, "NP"⟩).1.value =
          ((world0.internName ⟨8, "NP"⟩).2.internProp ⟨9, "NP"⟩).1.value)) :=
  ⟨⟨by decide, by decide⟩,
   c9_kind_separation world0 ⟨8, "NP"⟩ ⟨9, "NP"⟩ (by decide) (by decide)⟩

/-- C6: on categories with interned names and properties (equal texts imply
identical symbols) and construction-cached hashes, the comparisons form a
total order consistent with equality: exactly one of lt, eq, converse lt
holds, and the non-strict comparison agrees with the strict one despite their
different treatment of the trailing negative lists. -/
theorem c6_total_order (a b : Category)
    (hn : a.name.value.content = b.name.value.content → a.name = b.name)
    (hp : ContentInj (a.positive_properties ∪ b.positive_properties))
    (hq : ContentInj (a.negative_properties ∪ b.negative_properties))
    (ha : a.hash_value = categoryHash a.name a.positive_properties a.negative_properties)
    (hb : b.hash_value = categoryHash b.name b.positive_properties b.negative_properties) :
    ((category_lt a b = true ∧ category_eq a b = false ∧ category_lt b a = false) ∨
      (category_lt a b = false ∧ category_eq a b = true ∧ category_lt b a = false) ∨
      (category_lt a b = false ∧ category_eq a b = false ∧ category_lt b a = true)) ∧
    category_le a b = (category_lt a b || category_eq a b) := by
  by_cases hname : a.name = b.name
  · have hnn : ¬(a.name ≠ b.name) := fun h => h hname
    have hnn' : ¬(b.name ≠ a.name) := fun h => h hname.symm
    by_cases hpcard : a.positive_properties.card = b.positive_properties.card
    · have hnp : ¬(a.positive_properties.card ≠ b.positive_properties.card) :=
        fun h => h hpcard
      have hnp' : ¬(b.positive_properties.card ≠ a.positive_properties.card) :=
        fun h => h hpcard.symm
      by_cases hncard : a.negative_properties.card = b.negative_properties.card
      · have hnc : ¬(a.negative_properties.card ≠ b.negative_properties.card) :=
          fun h => h hncard
        have hnc' : ¬(b.negative_properties.card ≠ a.negative_properties.card) :=
          fun h => h hncard.symm
        by_cases hsp : py_sorted a.positive_properties = py_sorted b.positive_properties
        · have hspn : ¬(py_sorted a.positive_properties ≠ py_sorted b.positive_properties) :=
            fun h => h hsp
          have hspn' : ¬(py_sorted b.positive_properties ≠ py_sorted a.positive_properties) :=
            fun h => h hsp.symm
          have hpos : a.positive_properties = b.positive_properties :=
            py_sorted_inj _ _ hp hsp
          have hlt1 : category_lt a b =
              pyListLt (py_sorted a.negative_properties) (py_sorted b.negative_properties) := by
            unfold category_lt
            rw [if_neg hnn, if_neg hnp, if_neg hnc, if_neg hspn]
          have hlt2 : category_lt b a =
              pyListLt (py_sorted b.negative_properties) (py_sorted a.negative_properties) := by
            unfold category_lt
            rw [if_neg hnn', if_neg hnp', if_neg hnc', if_neg hspn']
          have hle1 : category_le a b =
              pyListLe (py_sorted a.negative_properties) (py_sorted b.negative_properties) := by
            unfold category_le
            rw [if_neg hnn, if_neg hnp, if_neg hnc, if_neg hspn]
          by_cases hsn : py_sorted a.negative_properties = py_sorted b.negative_properties
          · have hneg : a.negative_properties = b.negative_properties :=
              py_sorted_inj _ _ hq hsn
            have hh : a.hash_value = b.hash_value := by
              rw [ha, hb, hname, hpos, hneg]
            have heq : category_eq a b = true := by
              simp [category_eq, hh, hname, hpos, hneg]
            have h1 : category_lt a b = false := by
              rw [hlt1, hsn]
              exact pyListLt_irrefl _
            have h2 : category_lt b a = false := by
              rw [hlt2, ← hsn]
              exact pyListLt_irrefl _
            refine ⟨Or.inr (Or.inl ⟨h1, heq, h2⟩), ?_⟩
            rw [hle1, h1, heq, pyListLe_eq_lt_or_eq, hsn]
            simp [pyListLt_irrefl]
          · have hns : a.negative_properties ≠ b.negative_properties :=
              fun h => hsn (by rw [h])
            have heq : category_eq a b = false := by
              simp [category_eq, category_beq, hns]
            refine ⟨?_, ?_⟩
            · rcases pyListLt_connex _ _ hsn with h1 | h1
              · exact Or.inl ⟨by rw [hlt1]; exact h1, heq,
                  by rw [hlt2]; exact pyListLt_asymm _ _ h1⟩
              · exact Or.inr (Or.inr ⟨by rw [hlt1]; exact pyListLt_asymm _ _ h1, heq,
                  by rw [hlt2]; exact h1⟩)
            · rw [hle1, hlt1, heq, pyListLe_eq_lt_or_eq]
              simp [hsn]
        · have hsp' : py_sorted b.positive_properties ≠ py_sorted a.positive_properties :=
            fun h => hsp h.symm
          have hlt1 : category_lt a b =
              pyListLt (py_sorted a.positive_properties) (py_sorted b.positive_properties) := by
            unfold category_lt
            rw [if_neg hnn, if_neg hnp, if_neg hnc, if_pos hsp]
          have hlt2 : category_lt b a =
              pyListLt (py_sorted b.positive_properties) (py_sorted a.positive_properties) := by
            unfold category_lt
            rw [if_neg hnn', if_neg hnp', if_neg hnc', if_pos hsp']
          have hle1 : category_le a b =
              pyListLt (py_sorted a.positive_properties) (py_sorted b.positive_properties) := by
            unfold category_le
            rw [if_neg hnn, if_neg hnp, if_neg hnc, if_pos hsp]
          have hps : a.positive_properties ≠ b.positive_properties :=
            fun h => hsp (by rw [h])
          have heq : category_eq a b = false := by
            simp [category_eq, category_beq, hps]
          refine ⟨?_, by rw [hle1, hlt1, heq]; simp⟩
          rcases pyListLt_connex _ _ hsp with h1 | h1
          · exact Or.inl ⟨by rw [hlt1]; exact h1, heq,
              by rw [hlt2]; exact pyListLt_asymm _ _ h1⟩
          · exact Or.inr (Or.inr ⟨by rw [hlt1]; exact pyListLt_asymm _ _ h1, heq,
              by rw [hlt2]; exact h1⟩)
      · have hnc' : b.negative_properties.card ≠ a.negative_properties.card :=
          fun h => hncard h.symm
        have hlt1 : category_lt a b =
            decide (a.negative_properties.card < b.negative_properties.card) := by
          unfold category_lt
          rw [if_neg hnn, if_neg hnp, if_pos hncard]
        have hlt2 : category_lt b a =
            decide (b.negative_properties.card < a.negative_properties.card) := by
          unfold category_lt
          rw [if_neg hnn', if_neg hnp', if_pos hnc']
        have hle1 : category_le a b =
            decide (a.negative_properties.card < b.negative_properties.card) := by
          unfold category_le
          rw [if_neg hnn, if_neg hnp, if_pos hncard]
        have hns : a.negative_properties ≠ b.negative_properties :=
          fun h => hncard (by rw [h])
        have heq : category_eq a b = false := by
          simp [category_eq, category_beq, hns]
        refine ⟨?_, by rw [hle1, hlt1, heq]; simp⟩
        rcases Nat.lt_trichotomy a.negative_properties.card b.negative_properties.card with
          h1 | h1 | h1
        · exact Or.inl ⟨by rw [hlt1]; simp [h1], heq,
            by rw [hlt2]; simp [Nat.not_lt.mpr (Nat.le_of_lt h1)]⟩
        · exact absurd h1 hncard
        · exact Or.inr (Or.inr ⟨by rw [hlt1]; simp [Nat.not_lt.mpr (Nat.le_of_lt h1)], heq,
            by rw [hlt2]; simp [h1]⟩)
    · have hpc' : b.positive_properties.card ≠ a.positive_properties.card :=
        fun h => hpcard h.symm
      have hlt1 : category_lt a b =
          decide (a.positive_properties.card < b.positive_properties.card) := by
        unfold category_lt
        rw [if_neg hnn, if_pos hpcard]
      have hlt2 : category_lt b a =
          decide (b.positive_properties.card < a.positive_properties.card) := by
        unfold category_lt
        rw [if_neg hnn', if_pos hpc']
      have hle1 : category_le a b =
          decide (a.positive_properties.card < b.positive_properties.card) := by
        unfold category_le
        rw [if_neg hnn, if_pos hpcard]
      have hps : a.positive_properties ≠ b.positive_properties :=
        fun h => hpcard (by rw [h])
      have heq : category_eq a b = false := by
        simp [category_eq, category_beq, hps]
      refine ⟨?_, by rw [hle1, hlt1, heq]; simp⟩
      rcases Nat.lt_trichotomy a.positive_properties.card b.positive_properties.card with
        h1 | h1 | h1
      · exact Or.inl ⟨by rw [hlt1]; simp [h1], heq,
          by rw [hlt2]; simp [Nat.not_lt.mpr (Nat.le_of_lt h1)]⟩
      · exact absurd h1 hpcard
      · exact Or.inr (Or.inr ⟨by rw [hlt1]; simp [Nat.not_lt.mpr (Nat.le_of_lt h1)], heq,
          by rw [hlt2]; simp [h1]⟩)
  · have hcontent : a.name.value.content ≠ b.name.value.content :=
      fun h => hname (hn h)
    have hval : a.name.value ≠ b.name.value :=
      fun h => hcontent (congrArg RawStr.content h)
    have hval' : b.name.value ≠ a.name.value := fun h => hval h.symm
    have hname' : b.name ≠ a.name := fun h => hname h.symm
    have hlt1 : category_lt a b = interned_lt a.name b.name := by
      unfold category_lt
      rw [if_pos hname]
    have hlt2 : category_lt b a = interned_lt b.name a.name := by
      unfold category_lt
      rw [if_pos hname']
    have hle1 : category_le a b = interned_lt a.name b.name := by
      unfold category_le
      rw [if_pos hname]
    have heq : category_eq a b = false := by
      simp [category_eq, category_beq, hname]
    refine ⟨?_, by rw [hle1, hlt1, heq]; simp⟩
    rcases lt_trichotomy a.name.value.content b.name.value.content with h1 | h1 | h1
    · exact Or.inl ⟨by rw [hlt1]; simp [interned_lt, hval, h1], heq,
        by rw [hlt2]; simp [interned_lt, lt_asymm h1]⟩
    · exact absurd h1 hcontent
    · exact Or.inr (Or.inr ⟨by rw [hlt1]; simp [interned_lt, lt_asymm h1], heq,
        by rw [hlt2]; simp [interned_lt, hval', h1]⟩)

/-- Witness for C6 at the concrete valid categories NP(plural) and
NP(plural, definite): the hypotheses (interned symbols, cached hashes) hold
and the trichotomy and le-agreement follow. -/
theorem c6_total_order_witness :
    ((catNPplural.name.value.content = catNPboth.name.value.content →
        catNPplural.name = catNPboth.name) ∧
      ContentInj (catNPplural.positive_properties ∪ catNPboth.positive_properties) ∧
      ContentInj (catNPplural.negative_properties ∪ catNPboth.negative_properties) ∧
      catNPplural.hash_value = categoryHash catNPplural.name
        catNPplural.positive_properties catNPplural.negative_properties ∧
      catNPboth.hash_value = categoryHash catNPboth.name
        catNPboth.positive_properties catNPboth.negative_properties) ∧
    (((category_lt catNPplural catNPboth = true ∧
        category_eq catNPplural catNPboth = false ∧
        category_lt catNPboth catNPplural = false) ∨
      (category_lt catNPplural catNPboth = false ∧
        category_eq catNPplural catNPboth = true ∧
        category_lt catNPboth catNPplural = false) ∨
      (category_lt catNPplural catNPboth = false ∧
        category_eq catNPplural catNPboth = false ∧
        category_lt catNPboth catNPplural = true)) ∧
      category_le catNPplural catNPboth =
        (category_lt catNPplural catNPboth || category_eq catNPplural catNPboth)) :=
  ⟨⟨by decide, by decide, by decide, by decide, by decide⟩,
   c6_total_order catNPplural catNPboth (by decide) (by decide) (by decide)
     (by decide) (by decide)⟩
